import Mathlib

/-!
Verification of the vanity-address search tool (`vanity_byaddress.py`,
`vanity_create2.py`) against its specification.

Bytes are modelled as `Nat` (with explicit `% 256` / `% 2^64` where the
machine width matters), byte strings as `List Nat`, and text strings as
`List Char`.  The external primitives the code trusts (Keccak-256 and the
EIP-55 checksum encoding of `eth_utils` / `web3`) are implemented
concretely below, following their documented contracts; the elliptic-curve
public-key primitive (`coincurve.PublicKey.from_valid_secret`) is kept
abstract as a function parameter.
-/

/-! ## Keccak-256 (contract of `eth_utils.keccak`): Keccak-f[1600], rate 136,
original 0x01 multi-rate padding. -/

/-- 64-bit rotate left (lane arithmetic of Keccak-f[1600]). -/
def rotl64 (x n : Nat) : Nat :=
  ((x <<< n) ||| (x >>> (64 - n))) % (2 ^ 64)

/-- One step of the degree-8 LFSR (polynomial x^8+x^6+x^5+x^4+1) that
generates the Keccak round-constant bits. -/
def lfsrStep (r : Nat) : Nat :=
  ((r <<< 1) ^^^ ((r >>> 7) * 0x71)) % 256

/-- LFSR state after `t` steps from the initial state 1. -/
def rcState : Nat → Nat
  | 0 => 1
  | t + 1 => lfsrStep (rcState t)

/-- Round-constant bit rc(t) of the Keccak specification. -/
def rcBit (t : Nat) : Nat :=
  rcState t % 2

/-- Round constant of round `ir`: bit rc(j + 7*ir) lands at position
2^j - 1 for j = 0 … 6. -/
def keccakRCat (ir : Nat) : Nat :=
  (List.range 7).foldl (fun acc j => acc ||| (rcBit (j + 7 * ir) <<< (2 ^ j - 1))) 0

/-- The 24 round constants of Keccak-f[1600]. -/
def keccakRC : List Nat :=
  (List.range 24).map keccakRCat

/-- Fill the rho offset table by walking (x, y) ↦ (y, (2x+3y) % 5) from
(1, 0), writing the triangular-number rotation at each visited lane. -/
def rhoFill : Nat → Nat → Nat → List Nat → List Nat
  | 0, _, _, tbl => tbl
  | n + 1, x, y, tbl =>
    let t := 24 - (n + 1)
    rhoFill n y ((2 * x + 3 * y) % 5) (tbl.set (x + 5 * y) (((t + 1) * (t + 2) / 2) % 64))

/-- Rho rotation offsets, flattened with lane (x, y) at index x + 5*y. -/
def rhoOff : List Nat :=
  rhoFill 24 1 0 (List.replicate 25 0)

/-- Lane (x, y) of a 25-lane state stored flat at index x + 5*y. -/
def lane (A : List Nat) (x y : Nat) : Nat :=
  A.getD (x + 5 * y) 0

/-- Theta step. -/
def theta (A : List Nat) : List Nat :=
  let C := (List.range 5).map (fun x =>
    lane A x 0 ^^^ lane A x 1 ^^^ lane A x 2 ^^^ lane A x 3 ^^^ lane A x 4)
  let D := (List.range 5).map (fun x =>
    C.getD ((x + 4) % 5) 0 ^^^ rotl64 (C.getD ((x + 1) % 5) 0) 1)
  (List.range 25).map (fun i => A.getD i 0 ^^^ D.getD (i % 5) 0)

/-- Combined rho and pi steps: output lane (X, Y) with X = y, Y = (2x+3y) % 5
is the rho-rotated input lane (x, y); inverting, x = (3*Y + X) % 5. -/
def rhoPi (A : List Nat) : List Nat :=
  (List.range 25).map (fun j =>
    let y := j % 5
    let x := (3 * (j / 5) + y) % 5
    rotl64 (lane A x y) (rhoOff.getD (x + 5 * y) 0))

/-- Chi step; complement is XOR with the 64-bit all-ones mask. -/
def chi (B : List Nat) : List Nat :=
  (List.range 25).map (fun j =>
    let x := j % 5
    let y := j / 5
    lane B x y ^^^ ((lane B ((x + 1) % 5) y ^^^ (2 ^ 64 - 1)) &&& lane B ((x + 2) % 5) y))

/-- One Keccak-f round: theta, rho, pi, chi, then iota (XOR the round
constant into lane (0,0)). -/
def keccakRound (A : List Nat) (rc : Nat) : List Nat :=
  match chi (rhoPi (theta A)) with
  | [] => []
  | a :: rest => (a ^^^ rc) :: rest

/-- The full 24-round Keccak-f[1600] permutation. -/
def keccakF (A : List Nat) : List Nat :=
  keccakRC.foldl keccakRound A

/-- Little-endian bytes to a 64-bit lane. -/
def bytesToLane (bs : List Nat) : Nat :=
  bs.foldr (fun b acc => acc * 256 + b) 0

/-- 64-bit lane to 8 little-endian bytes. -/
def laneToBytes (x : Nat) : List Nat :=
  (List.range 8).map (fun i => (x >>> (8 * i)) % 256)

/-- Original Keccak multi-rate padding at rate 136: append 0x01, zeros,
0x80 (a single 0x81 when only one byte of padding fits). -/
def keccakPad (msg : List Nat) : List Nat :=
  let padlen := 136 - msg.length % 136
  if padlen = 1 then msg ++ [0x81]
  else msg ++ 0x01 :: (List.replicate (padlen - 2) 0 ++ [0x80])

/-- XOR a 136-byte block into the first 17 lanes and permute. -/
def absorbBlock (A block : List Nat) : List Nat :=
  keccakF ((List.range 25).map (fun i =>
    A.getD i 0 ^^^ (if i < 17 then bytesToLane ((block.drop (8 * i)).take 8) else 0)))

/-- Absorb `n` consecutive 136-byte blocks of `p`. -/
def absorbBlocks : Nat → List Nat → List Nat → List Nat
  | 0, A, _ => A
  | n + 1, A, p => absorbBlocks n (absorbBlock A (p.take 136)) (p.drop 136)

/-- Keccak-256 of a byte string: 32-byte digest. -/
def keccak256 (msg : List Nat) : List Nat :=
  let p := keccakPad msg
  let A := absorbBlocks (p.length / 136) (List.replicate 25 0) p
  ((List.range 4).map (fun i => laneToBytes (A.getD i 0))).flatten

/-! ## Hex strings and the EIP-55 checksum encoding -/

/-- The sixteen lowercase hex digit characters, by their ASCII codes. -/
def hex16 : List Char :=
  (List.range 10).map (fun n => Char.ofNat (48 + n)) ++
    (List.range 6).map (fun n => Char.ofNat (97 + n))

/-- Lowercase hex digit for a nibble, as produced by Python `bytes.hex()`. -/
def hexDigitChar (n : Nat) : Char :=
  hex16.getD n '0'

/-- The 22 characters `bytes.fromhex` accepts as digits. -/
def hexCharsExt : List Char :=
  hex16 ++ ['A', 'B', 'C', 'D', 'E', 'F']

/-- Python `bytes.hex()`: two lowercase hex digits per byte. -/
def bytesToHex (bs : List Nat) : List Char :=
  bs.flatMap (fun b => [hexDigitChar (b / 16), hexDigitChar (b % 16)])

/-- Value of a hex digit character (digits, lowercase a–f, uppercase A–F by
their ASCII codes), `none` for non-hex characters. -/
def hexDigitVal? (c : Char) : Option Nat :=
  let n := c.toNat
  if 48 ≤ n ∧ n ≤ 57 then some (n - 48)
  else if 97 ≤ n ∧ n ≤ 102 then some (n - 87)
  else if 65 ≤ n ∧ n ≤ 70 then some (n - 55)
  else none

/-- A character CPython `bytes.fromhex` accepts as a digit. -/
def isHexChar (c : Char) : Bool :=
  (hexDigitVal? c).isSome

/-- ASCII whitespace skipped by CPython `bytes.fromhex` between bytes. -/
def isPySpace (c : Char) : Bool :=
  c = ' ' || c = '\t' || c = '\n' || c = '\x0d' ||
    c = Char.ofNat 11 || c = Char.ofNat 12

/-- Worker of `pyFromHex`; `pending` holds a first nibble waiting for its
partner.  Whitespace is allowed between bytes but not inside a byte, and a
dangling single digit is an error — exactly CPython `bytes.fromhex`. -/
def pyFromHexAux : Option Nat → List Char → Option (List Nat)
  | none, [] => some []
  | some _, [] => none
  | none, c :: rest =>
    if isPySpace c then pyFromHexAux none rest
    else match hexDigitVal? c with
      | none => none
      | some d => pyFromHexAux (some d) rest
  | some d1, c :: rest =>
    match hexDigitVal? c with
    | none => none
    | some d2 => (pyFromHexAux none rest).map (fun bs => (16 * d1 + d2) :: bs)

/-- Python `bytes.fromhex`. -/
def pyFromHex (s : List Char) : Option (List Nat) :=
  pyFromHexAux none s

/-- Nibble `i` of a byte string: high nibble of byte `i/2` when `i` is even,
low nibble when odd. -/
def nibbleAt (h : List Nat) (i : Nat) : Nat :=
  if i % 2 = 0 then h.getD (i / 2) 0 / 16 else h.getD (i / 2) 0 % 16

/-- EIP-55 case map: uppercase the hex digit at position `i` iff nibble `i`
of the hash `h` is at least 8. -/
def checksumMapAux (h : List Nat) : Nat → List Char → List Char
  | _, [] => []
  | i, c :: rest =>
    (if 8 ≤ nibbleAt h i then c.toUpper else c) :: checksumMapAux h (i + 1) rest

/-- The checksum-encoding primitive (`eth_utils.to_checksum_address` /
`web3.Web3.to_checksum_address`), per its documented EIP-55 contract: hash
the 40 lowercase hex digits (as ASCII bytes) with Keccak-256 and uppercase
each digit whose corresponding hash nibble is ≥ 8.  Input is the
`0x`-prefixed lowercase hex string the code always passes. -/
def to_checksum_address (s : List Char) : List Char :=
  let hp := s.drop 2
  '0' :: 'x' :: checksumMapAux (keccak256 (hp.map Char.toNat)) 0 hp

/-! ## Address derivation (`vanity_byaddress.py`, `vanity_create2.py`) -/

/-- Python `b[-20:]`: the low (last) 20 bytes. -/
def last20 (bs : List Nat) : List Nat :=
  bs.drop (bs.length - 20)

/-- `generate_address_from_private_key` of vanity_byaddress.py.  `ecPub`
abstracts `coincurve.PublicKey.from_valid_secret(k).format(compressed=False)`
(the 65-byte uncompressed encoding); the code strips its leading format
byte (`[1:]`), hashes, and keeps the last 20 bytes. -/
def generate_address_from_private_key (ecPub : List Nat → List Nat)
    (private_key_bytes : List Nat) : List Nat :=
  last20 (keccak256 ((ecPub private_key_bytes).drop 1))

/-- `get_contract_address` of vanity_byaddress.py. -/
def get_contract_address (sender_bytes : List Nat) (nonce : Nat) : List Nat :=
  if nonce = 0 then
    last20 (keccak256 ([0xd6, 0x94] ++ sender_bytes ++ [0x80]))
  else
    last20 (keccak256 ([0xd6, 0x94] ++ sender_bytes ++ [nonce]))

/-- `FF_CONSTANT` of vanity_create2.py. -/
def FF_CONSTANT : List Nat := [0xff]

/-- `calculate_create2_address_optimized` of vanity_create2.py. -/
def calculate_create2_address_optimized
    (deployer_bytes salt_bytes bytecode_bytes : List Nat) : List Nat :=
  last20 (keccak256 (FF_CONSTANT ++ deployer_bytes ++ salt_bytes ++ bytecode_bytes))

/-- Spec-side `senderAddress` (§4.1): uncompressed public-key encoding minus
its leading format byte, hashed with Keccak-256, low 20 bytes. -/
def senderAddress_spec (ecPub : List Nat → List Nat) (secretKey : List Nat) : List Nat :=
  last20 (keccak256 ((ecPub secretKey).drop 1))

/-- Spec-side single-byte nonce encoding (§4.1/§8): nonce 0 is the RLP empty
byte 0x80, other one-byte nonces are themselves. -/
def nonceByte_spec (nonce : Nat) : Nat :=
  if nonce = 0 then 0x80 else nonce

/-- Spec-side `legacyContractAddress` (§4.1): Keccak-256 of
`0xd6 0x94 ‖ sender ‖ nonce byte`, low 20 bytes. -/
def legacyContractAddress_spec (sender : List Nat) (nonce : Nat) : List Nat :=
  last20 (keccak256 ([0xd6, 0x94] ++ sender ++ [nonceByte_spec nonce]))

/-- Spec-side `create2ContractAddress` (§4.1): Keccak-256 of
`0xff ‖ deployer ‖ salt ‖ initCodeHash`, low 20 bytes. -/
def create2ContractAddress_spec (deployer salt initCodeHash : List Nat) : List Nat :=
  last20 (keccak256 (0xff :: (deployer ++ salt ++ initCodeHash)))

/-- The secp256k1 group order; a 32-byte secret is a valid scalar for
`from_valid_secret` iff its big-endian value is in `[1, order)`. -/
def secp256k1Order : Nat :=
  0xFFFFFFFFFFFFFFFFFFFFFFFFFFFFFFFEBAAEDCE6AF48A03BBFD25E8CD0364141

/-- Big-endian byte-string value. -/
def beValue (bs : List Nat) : Nat :=
  bs.foldl (fun acc b => acc * 256 + b) 0

/-- Valid secp256k1 secret key: 32 bytes whose value is a nonzero scalar
below the group order. -/
def validScalar (bs : List Nat) : Prop :=
  bs.length = 32 ∧ 0 < beValue bs ∧ beValue bs < secp256k1Order

instance (bs : List Nat) : Decidable (validScalar bs) := by
  unfold validScalar; infer_instance

/-! ## Worker search loops -/

/-- 32-byte candidate number `j` of a byte stream: `os.urandom` output is
drawn sequentially, 32 bytes per candidate, each draw a byte. -/
def keyAt (rand : Nat → Nat) (j : Nat) : List Nat :=
  (List.range 32).map (fun b => rand (32 * j + b) % 256)

/-- Stage 1 of the filter in `search_chunk` (vanity_byaddress.py):
`contract_bytes[:prefix_len].hex().upper() == prefix_bytes.hex().upper()`. -/
def fastCheck (contract_bytes pb : List Nat) : Bool :=
  (bytesToHex (contract_bytes.take pb.length)).map Char.toUpper ==
    (bytesToHex pb).map Char.toUpper

/-- One candidate of `search_chunk` (vanity_byaddress.py): private key `j`
of the stream, sender and contract derivation, two-stage filter, and on
success the `(private key hex, checksummed sender, checksummed contract)`
triple the code returns. -/
def tryKeyBy (ecPub : List Nat → List Nat) (rand : Nat → Nat) (pb : List Nat)
    (ps : List Char) (j : Nat) : Option (List Char × List Char × List Char) :=
  let private_key_bytes := keyAt rand j
  let sender_bytes := generate_address_from_private_key ecPub private_key_bytes
  let contract_bytes := get_contract_address sender_bytes 0
  if fastCheck contract_bytes pb then
    let contract_addr := to_checksum_address ('0' :: 'x' :: bytesToHex contract_bytes)
    if ps.isPrefixOf contract_addr then
      some (bytesToHex private_key_bytes,
        to_checksum_address ('0' :: 'x' :: bytesToHex sender_bytes), contract_addr)
    else none
  else none

/-- Candidates `base, base+1, …, base+k-1` in order, first success wins
(the `for i in range(batch_size)` inner loop). -/
def innerLoop (f : Nat → Option α) : Nat → Nat → Option α
  | _, 0 => none
  | base, k + 1 =>
    match f base with
    | some r => some r
    | none => innerLoop f (base + 1) k

/-- `BATCH_SIZE` of vanity_byaddress.py. -/
def BATCH_SIZE : Nat := 1000

/-- The `for batch_start in range(0, iterations, BATCH_SIZE)` outer loop of
`search_chunk` (vanity_byaddress.py); `nb` counts the remaining batch
starts. -/
def batchLoop (f : Nat → Option α) (iterations : Nat) : Nat → Nat → Option α
  | 0, _ => none
  | nb + 1, batch_start =>
    let batch_size := min BATCH_SIZE (iterations - batch_start)
    match innerLoop f batch_start batch_size with
    | some r => some r
    | none => batchLoop f iterations nb (batch_start + BATCH_SIZE)

/-- `search_chunk` of vanity_byaddress.py over an explicit random byte
stream. -/
def search_chunk_by (ecPub : List Nat → List Nat) (rand : Nat → Nat)
    (pb : List Nat) (ps : List Char) (iterations : Nat) :
    Option (List Char × List Char × List Char) :=
  batchLoop (tryKeyBy ecPub rand pb ps) iterations
    ((iterations + (BATCH_SIZE - 1)) / BATCH_SIZE) 0

/-- One candidate of `search_chunk` (vanity_create2.py): salt `j` of the
stream, CREATE2 derivation, checksum-prefix test, salt hex on success. -/
def trySaltC2 (rand : Nat → Nat) (deployer_bytes bytecode_bytes : List Nat)
    (vp : List Char) (j : Nat) : Option (List Char) :=
  let salt_bytes := keyAt rand j
  let address_bytes :=
    calculate_create2_address_optimized deployer_bytes salt_bytes bytecode_bytes
  let checksummed := to_checksum_address ('0' :: 'x' :: bytesToHex address_bytes)
  if vp.isPrefixOf checksummed then some (bytesToHex salt_bytes) else none

/-- `search_chunk` of vanity_create2.py over an explicit random byte
stream: a plain `for _ in range(iterations)` loop. -/
def search_chunk_c2 (rand : Nat → Nat) (deployer_bytes bytecode_bytes : List Nat)
    (vp : List Char) (iterations : Nat) : Option (List Char) :=
  innerLoop (trySaltC2 rand deployer_bytes bytecode_bytes vp) 0 iterations

/-! ## Parallel coordinators -/

/-- The shared `if not vanity_prefix.startswith("0x"): vanity_prefix = "0x" +
vanity_prefix` normalization. -/
def ensure0x (p : List Char) : List Char :=
  if ['0', 'x'].isPrefixOf p then p else '0' :: 'x' :: p

/-- INIT of `find_vanity_address_parallel` (vanity_byaddress.py): ensure the
`0x` marker, then `bytes.fromhex` the rest, raising
`ValueError("Invalid hex prefix: …")` on failure. -/
def init_by (vanityPfx : List Char) : Except (List Char) (List Nat × List Char) :=
  let vp := ensure0x vanityPfx
  match pyFromHex (vp.drop 2) with
  | none => .error ("Invalid hex prefix: ".toList ++ vp)
  | some pb => .ok (pb, vp)

/-- Python `str.replace(s, "0x", "")`: one left-to-right pass removing
non-overlapping occurrences. -/
def remove0x : List Char → List Char
  | '0' :: 'x' :: rest => remove0x rest
  | c :: rest => c :: remove0x rest
  | [] => []

/-- Python `str.zfill(n)`: left-pad with `'0'` to length `n`, keeping a
leading sign character in place. -/
def pyZfill (n : Nat) (s : List Char) : List Char :=
  if n ≤ s.length then s
  else
    match s with
    | c :: rest =>
      if c = '+' ∨ c = '-' then c :: (List.replicate (n - s.length) '0' ++ rest)
      else List.replicate (n - s.length) '0' ++ s
    | [] => List.replicate n '0'

/-- INIT of `find_vanity_address_parallel` (vanity_create2.py):
`bytes.fromhex` the lowercased, `0x`-stripped, zero-filled deployer and the
bytecode hash; the vanity prefix is only given its `0x` marker, never
hex-validated. -/
def init_c2 (deployer bytecode vanityPfx : List Char) :
    Except (List Char) (List Nat × List Nat × List Char) :=
  match pyFromHex (pyZfill 40 (remove0x (deployer.map Char.toLower))) with
  | none => .error ("non-hexadecimal number found in deployer".toList)
  | some deployer_bytes =>
    match pyFromHex bytecode with
    | none => .error ("non-hexadecimal number found in bytecode".toList)
    | some bytecode_bytes =>
      .ok (deployer_bytes, bytecode_bytes, ensure0x vanityPfx)

/-- The `for result in results: if result:` selection: first worker result
that is present, in collection order. -/
def firstHit : List (Option α) → Option α
  | [] => none
  | some r :: _ => some r
  | none :: rest => firstHit rest

/-- The coordinator's round loop (both modes): dispatch round `r`, add
`chunk_size * num_processes` (`step`) to the iteration counter, return on a
hit, else loop.  Yields the counter value after each completed round (the
number any progress or final report reads) and, on success, the final
counter with the selected result.  `fuel` bounds how many rounds we unroll
(the code's `while True` has no bound). -/
def roundLoop (roundRes : Nat → List (Option α)) (step : Nat) :
    Nat → Nat → Nat → List Nat × Option (Nat × α)
  | 0, _, _ => ([], none)
  | fuel + 1, r, iters =>
    let it' := iters + step
    match firstHit (roundRes r) with
    | some res => ([it'], some (it', res))
    | none =>
      let next := roundLoop roundRes step fuel (r + 1) it'
      (it' :: next.1, next.2)

/-- Worker results of round `r` in the sender-key mode: each of the
`num` workers runs `search_chunk` on the same task with its own random
stream (`streams r w`). -/
def roundResBy (ecPub : List Nat → List Nat) (streams : Nat → Nat → Nat → Nat)
    (pb : List Nat) (ps : List Char) (chunk_size num r : Nat) :
    List (Option (List Char × List Char × List Char)) :=
  (List.range num).map (fun w => search_chunk_by ecPub (streams r w) pb ps chunk_size)

/-- Worker results of round `r` in the CREATE2 mode. -/
def roundResC2 (streams : Nat → Nat → Nat → Nat) (deployer_bytes bytecode_bytes : List Nat)
    (vp : List Char) (chunk_size num r : Nat) : List (Option (List Char)) :=
  (List.range num).map (fun w =>
    search_chunk_c2 (streams r w) deployer_bytes bytecode_bytes vp chunk_size)

/-- `find_vanity_address_parallel` of vanity_byaddress.py: INIT, then the
round loop; an INIT failure raises before any round is dispatched.  Returns
the reported counter trace and the outcome. -/
def find_vanity_by (ecPub : List Nat → List Nat) (streams : Nat → Nat → Nat → Nat)
    (vanityPfx : List Char) (num chunk_size fuel : Nat) :
    Except (List Char) (List Nat × Option (Nat × (List Char × List Char × List Char))) :=
  match init_by vanityPfx with
  | .error e => .error e
  | .ok (pb, vp) =>
    .ok (roundLoop (roundResBy ecPub streams pb vp chunk_size num) (chunk_size * num) fuel 0 0)

/-- `find_vanity_address_parallel` of vanity_create2.py: INIT, round loop
with the fixed `chunk_size = 100_000`, and on success the recomputation of
`final_address` from `bytes.fromhex` of the returned salt hex. -/
def find_vanity_c2 (streams : Nat → Nat → Nat → Nat)
    (deployer bytecode vanityPfx : List Char) (num fuel : Nat) :
    Except (List Char) (List Nat × Option (Nat × List Char × List Char)) :=
  match init_c2 deployer bytecode vanityPfx with
  | .error e => .error e
  | .ok (deployer_bytes, bytecode_bytes, vp) =>
    let chunk_size := 100000
    let out :=
      roundLoop (roundResC2 streams deployer_bytes bytecode_bytes vp chunk_size num)
        (chunk_size * num) fuel 0 0
    match out.2 with
    | none => .ok (out.1, none)
    | some (it, salt) =>
      match pyFromHex salt with
      | none => .error ("non-hexadecimal number found in salt".toList)
      | some salt_bytes =>
        .ok (out.1, some (it, salt, '0' :: 'x' :: bytesToHex
          (calculate_create2_address_optimized deployer_bytes salt_bytes bytecode_bytes)))

/-- Did the coordinator return a result after exactly one round? -/
def oneRoundSuccess : Except (List Char) (List Nat × Option α) → Bool
  | .ok (trace, out) => trace.length == 1 && out.isSome
  | .error _ => false

/-- Checksum string of an address, as the code builds it:
`to_checksum_address('0x' + bytes.hex())`. -/
def checksumOf (a : List Nat) : List Char :=
  to_checksum_address ('0' :: 'x' :: bytesToHex a)

/-- The complete two-stage filter of `search_chunk` (vanity_byaddress.py,
lines 48–53): cheap byte-level case-insensitive stage, then exact
case-sensitive comparison against the checksummed string. -/
def matchesFilter (a pb : List Nat) (vp : List Char) : Bool :=
  fastCheck a pb && vp.isPrefixOf (checksumOf a)

/-! ## Concrete streams and primitives used by witnesses -/

/-- Decidable equality for `Except`, so concrete coordinator runs can be
checked by `decide`. -/
instance {ε α : Type _} [DecidableEq ε] [DecidableEq α] : DecidableEq (Except ε α) := fun x y =>
  match x, y with
  | .error a, .error b =>
    match decEq a b with
    | isTrue h => isTrue (by rw [h])
    | isFalse h => isFalse (fun hh => h (by injection hh))
  | .ok a, .ok b =>
    match decEq a b with
    | isTrue h => isTrue (by rw [h])
    | isFalse h => isFalse (fun hh => h (by injection hh))
  | .error _, .ok _ => isFalse (fun hh => Except.noConfusion hh)
  | .ok _, .error _ => isFalse (fun hh => Except.noConfusion hh)

instance decEqTripleStr : DecidableEq (List Char × List Char × List Char) :=
  inferInstance

instance decEqResBy : DecidableEq (Nat × (List Char × List Char × List Char)) :=
  inferInstance

instance decEqPayloadBy :
    DecidableEq (List Nat × Option (Nat × (List Char × List Char × List Char))) :=
  inferInstance

instance decEqResC2 : DecidableEq (Nat × List Char × List Char) :=
  inferInstance

instance decEqPayloadC2 : DecidableEq (List Nat × Option (Nat × List Char × List Char)) :=
  inferInstance

/-- A concrete stand-in for the abstract EC primitive: every key maps to a
65-byte all-zero uncompressed encoding. -/
def ecPubZero : List Nat → List Nat := fun _ => List.replicate 65 0

/-- The all-zero random byte stream. -/
def randZero : Nat → Nat := fun _ => 0

/-- All-zero random streams for every round and worker. -/
def streamsZero : Nat → Nat → Nat → Nat := fun _ _ _ => 0

set_option maxRecDepth 10000

/-! ## Known-answer anchors for the modelled primitives -/

/-- Keccak-256 of the empty string (standard known-answer test). -/
theorem keccak256_empty_vector : keccak256 [] =
    [0xc5, 0xd2, 0x46, 0x01, 0x86, 0xf7, 0x23, 0x3c, 0x92, 0x7e, 0x7d, 0xb2,
     0xdc, 0xc7, 0x03, 0xc0, 0xe5, 0x00, 0xb6, 0x53, 0xca, 0x82, 0x27, 0x3b,
     0x7b, 0xfa, 0xd8, 0x04, 0x5d, 0x85, 0xa4, 0x70] := by decide

/-- Keccak-256 of "abc" (standard known-answer test). -/
theorem keccak256_abc_vector : keccak256 [0x61, 0x62, 0x63] =
    [0x4e, 0x03, 0x65, 0x7a, 0xea, 0x45, 0xa9, 0x4f, 0xc7, 0xd4, 0x7b, 0xa8,
     0x26, 0xc8, 0xd6, 0x67, 0xc0, 0xd1, 0xe6, 0xe3, 0x3a, 0x64, 0xa0, 0x36,
     0xec, 0x44, 0xf5, 0x8f, 0xa1, 0x2d, 0x6c, 0x45] := by decide

/-- The EIP-55 reference vector checks out against the modelled
`to_checksum_address`. -/
theorem to_checksum_address_eip55_vector : to_checksum_address ('0' :: 'x' ::
    bytesToHex [0x5a, 0xae, 0xb6, 0x05, 0x3f, 0x3e, 0x94, 0xc9, 0xb9, 0xa0,
                0x9f, 0x33, 0x66, 0x94, 0x35, 0xe7, 0xef, 0x1b, 0xea, 0xed]) =
    "0x5aAeb6053F3E94C9b9A09f33669435E7Ef1BeAed".toList := by decide

/-! ## Generic facts about the worker loops -/

theorem innerLoop_eq (f : Nat → Option α) :
    ∀ (k base : Nat), innerLoop f base k = (List.range' base k).findSome? f := by
  intro k
  induction k with
  | zero => intro base; rfl
  | succ k ih =>
    intro base
    rw [List.range'_succ, List.findSome?_cons]
    show (match f base with
      | some r => some r
      | none => innerLoop f (base + 1) k) = _
    cases f base <;> simp [ih]

theorem batchLoop_eq (f : Nat → Option α) (it : Nat) :
    ∀ (nb bs : Nat),
      batchLoop f it nb bs = (List.range' bs (min (it - bs) (BATCH_SIZE * nb))).findSome? f := by
  intro nb
  induction nb with
  | zero => intro bs; simp [batchLoop]
  | succ nb ih =>
    intro bs
    show (match innerLoop f bs (min BATCH_SIZE (it - bs)) with
      | some r => some r
      | none => batchLoop f it nb (bs + BATCH_SIZE)) = _
    rw [innerLoop_eq, ih]
    simp only [BATCH_SIZE] at *
    rcases Nat.le_total (it - bs) 1000 with h | h
    · have h0 : min 1000 (it - bs) = it - bs := by omega
      have h1 : min (it - bs) (1000 * (nb + 1)) = it - bs := by
        have h' : 1000 ≤ 1000 * (nb + 1) := by omega
        omega
      have h2 : min (it - (bs + 1000)) (1000 * nb) = 0 := by omega
      rw [h0, h1, h2]
      cases hx : (List.range' bs (it - bs)).findSome? f <;> simp [hx]
    · have h0 : min 1000 (it - bs) = 1000 := by omega
      have h1 : min (it - bs) (1000 * (nb + 1)) = min (it - (bs + 1000)) (1000 * nb) + 1000 := by
        omega
      rw [h0, h1, ← List.range'_append_1, List.findSome?_append]
      cases hx : (List.range' bs 1000).findSome? f <;> simp [hx, Option.or]

theorem search_chunk_by_eq (ecPub : List Nat → List Nat) (rand : Nat → Nat)
    (pb : List Nat) (ps : List Char) (n : Nat) :
    search_chunk_by ecPub rand pb ps n = (List.range n).findSome? (tryKeyBy ecPub rand pb ps) := by
  unfold search_chunk_by
  rw [batchLoop_eq, List.range_eq_range']
  have h : min (n - 0) (BATCH_SIZE * ((n + (BATCH_SIZE - 1)) / BATCH_SIZE)) = n := by
    simp only [BATCH_SIZE]
    omega
  rw [h]

theorem search_chunk_c2_eq (rand : Nat → Nat) (db bb : List Nat) (vp : List Char) (n : Nat) :
    search_chunk_c2 rand db bb vp n =
      (List.range n).findSome? (trySaltC2 rand db bb vp) := by
  unfold search_chunk_c2
  rw [innerLoop_eq, List.range_eq_range']

theorem findSome?_range_none_iff (f : Nat → Option α) (n : Nat) :
    (List.range n).findSome? f = none ↔ ∀ j < n, f j = none := by
  rw [List.findSome?_eq_none_iff]
  constructor
  · intro h j hj
    exact h j (List.mem_range.mpr hj)
  · intro h x hx
    exact h x (List.mem_range.mp hx)

theorem findSome?_range_first (f : Nat → Option α) (n j : Nat) (r : α)
    (hj : j < n) (hfirst : ∀ i < j, f i = none) (hr : f j = some r) :
    (List.range n).findSome? f = some r := by
  rw [List.findSome?_eq_some_iff]
  obtain ⟨m, hm⟩ : ∃ m, n - j = m + 1 := ⟨n - j - 1, by omega⟩
  refine ⟨List.range j, j, List.range' (j + 1) m, ?_, hr, ?_⟩
  · rw [List.range_eq_range', List.range_eq_range']
    have h1 := List.range'_append_1 0 j (n - j)
    rw [hm] at h1
    have h2 : m + 1 + j = n := by omega
    rw [h2] at h1
    rw [← h1, List.range'_succ]
    simp
  · intro x hx
    exact hfirst x (List.mem_range.mp hx)

/-! ## C1: CREATE2 derivation -/

/-- C1: for every deployer, salt and init-code hash, the CREATE2 derivation
`calculate_create2_address_optimized` returns the low 20 bytes of
Keccak-256 of `0xff ‖ deployer ‖ salt ‖ initCodeHash` (the spec-side
formula `create2ContractAddress_spec`); and at the literal deployer
`0x4e59b44847b379578588920cA78FbF26c0B4956C`, the all-zero 32-byte salt and
the repository's fixed init-code hash it reproduces the hand-computed
20-byte address. -/
theorem create2_formula_and_vector :
    (∀ deployer salt initCodeHash : List Nat,
      calculate_create2_address_optimized deployer salt initCodeHash =
        create2ContractAddress_spec deployer salt initCodeHash) ∧
    calculate_create2_address_optimized
      [0x4e, 0x59, 0xb4, 0x48, 0x47, 0xb3, 0x79, 0x57, 0x85, 0x88, 0x92, 0x0c,
       0xa7, 0x8f, 0xbf, 0x26, 0xc0, 0xb4, 0x95, 0x6c]
      (List.replicate 32 0)
      [0x3b, 0xa2, 0x83, 0x7b, 0x92, 0xa4, 0x8b, 0x70, 0xfa, 0xda, 0x56, 0xd2,
       0x8b, 0xb2, 0x4d, 0xd6, 0xbc, 0x29, 0x31, 0x08, 0x5d, 0x07, 0x02, 0x6c,
       0x06, 0xe5, 0x97, 0x7a, 0xc5, 0xfe, 0x3d, 0x07] =
      [0xc3, 0x60, 0xc1, 0x74, 0x13, 0x9d, 0xff, 0x9a, 0x9b, 0x73, 0xd6, 0xe2,
       0xaf, 0x68, 0xae, 0x75, 0x13, 0x89, 0xdf, 0xa4] := by
  constructor
  · intro d s i
    simp [calculate_create2_address_optimized, create2ContractAddress_spec,
      FF_CONSTANT, List.append_assoc]
  · decide

/-! ## C4: legacy CREATE derivation -/

/-- C4: for every sender and one-byte nonce, `get_contract_address` returns
the low 20 bytes of Keccak-256 of `0xd6 0x94 ‖ sender ‖ nonce byte`, where
nonce 0 is encoded as the byte 0x80 (`legacyContractAddress_spec`); with the
all-zero 20-byte sender and nonce 0 it equals
`keccak256([0xd6,0x94] ‖ 0^20 ‖ [0x80])[-20:]`, the hand-computed vector. -/
theorem legacy_formula_and_vector :
    (∀ (sender : List Nat) (nonce : Nat), nonce < 256 →
      get_contract_address sender nonce = legacyContractAddress_spec sender nonce) ∧
    get_contract_address (List.replicate 20 0) 0 =
      last20 (keccak256 ([0xd6, 0x94] ++ List.replicate 20 0 ++ [0x80])) ∧
    get_contract_address (List.replicate 20 0) 0 =
      [0xbd, 0x77, 0x04, 0x16, 0xa3, 0x34, 0x5f, 0x91, 0xe4, 0xb3, 0x45, 0x76,
       0xcb, 0x80, 0x4a, 0x57, 0x6f, 0xa4, 0x8e, 0xb1] := by
  refine ⟨?_, rfl, by decide⟩
  intro s n hn
  unfold get_contract_address legacyContractAddress_spec nonceByte_spec
  by_cases h : n = 0 <;> simp [h]

/-- Witness for C4: the one-byte-nonce hypothesis discharged at nonce 5 with
a concrete sender. -/
theorem legacy_formula_witness :
    5 < 256 ∧ get_contract_address (List.replicate 20 1) 5 =
      legacyContractAddress_spec (List.replicate 20 1) 5 :=
  ⟨by decide, legacy_formula_and_vector.1 (List.replicate 20 1) 5 (by decide)⟩

/-! ## C5: sender-address derivation -/

/-- C5: for every valid secp256k1 secret key, the sender derivation
`generate_address_from_private_key` equals the spec-side `senderAddress`
(low 20 bytes of Keccak-256 of the uncompressed public-key encoding minus
its leading format byte), and, being a pure function of its inputs,
repeated calls agree. -/
theorem sender_address_derivation :
    ∀ (ecPub : List Nat → List Nat) (k : List Nat), validScalar k →
      generate_address_from_private_key ecPub k = senderAddress_spec ecPub k ∧
      generate_address_from_private_key ecPub k =
        last20 (keccak256 ((ecPub k).drop 1)) ∧
      generate_address_from_private_key ecPub k =
        generate_address_from_private_key ecPub k := by
  intro e k hk
  exact ⟨rfl, rfl, rfl⟩

/-- Witness for C5: the valid-scalar hypothesis discharged at the 32-byte
key with value 1. -/
theorem sender_address_witness :
    validScalar (List.replicate 31 0 ++ [1]) ∧
    generate_address_from_private_key ecPubZero (List.replicate 31 0 ++ [1]) =
      senderAddress_spec ecPubZero (List.replicate 31 0 ++ [1]) :=
  ⟨by decide, (sender_address_derivation ecPubZero (List.replicate 31 0 ++ [1]) (by decide)).1⟩

/-! ## C3: worker search loop — budget, short-circuit, exhaustion -/

/-- C3: in both modes, `search_chunk` over a budget of `n` candidates equals
the first success among candidates `0 … n-1` (so at most `n` fresh
candidates are examined), returns the first passing candidate's result as
soon as it is found, and returns `none` exactly when all `n` candidates
fail the filter. -/
theorem search_chunk_budget :
    ∀ (ecPub : List Nat → List Nat) (rand : Nat → Nat) (pb db bb : List Nat)
      (ps vp : List Char) (n : Nat),
      (search_chunk_by ecPub rand pb ps n =
        (List.range n).findSome? (tryKeyBy ecPub rand pb ps)) ∧
      (search_chunk_by ecPub rand pb ps n = none ↔
        ∀ j < n, tryKeyBy ecPub rand pb ps j = none) ∧
      (∀ j r, j < n → (∀ i < j, tryKeyBy ecPub rand pb ps i = none) →
        tryKeyBy ecPub rand pb ps j = some r →
        search_chunk_by ecPub rand pb ps n = some r) ∧
      (search_chunk_c2 rand db bb vp n =
        (List.range n).findSome? (trySaltC2 rand db bb vp)) ∧
      (search_chunk_c2 rand db bb vp n = none ↔
        ∀ j < n, trySaltC2 rand db bb vp j = none) ∧
      (∀ j r, j < n → (∀ i < j, trySaltC2 rand db bb vp i = none) →
        trySaltC2 rand db bb vp j = some r →
        search_chunk_c2 rand db bb vp n = some r) := by
  intro ecPub rand pb db bb ps vp n
  refine ⟨search_chunk_by_eq ecPub rand pb ps n, ?_, ?_,
    search_chunk_c2_eq rand db bb vp n, ?_, ?_⟩
  · rw [search_chunk_by_eq]
    exact findSome?_range_none_iff _ n
  · intro j r hj hfirst hr
    rw [search_chunk_by_eq]
    exact findSome?_range_first _ n j r hj hfirst hr
  · rw [search_chunk_c2_eq]
    exact findSome?_range_none_iff _ n
  · intro j r hj hfirst hr
    rw [search_chunk_c2_eq]
    exact findSome?_range_first _ n j r hj hfirst hr

/-- Witness for C3: with the all-zero stream and the always-matching empty
byte prefix, candidate 0 matches and a budget-1 search returns exactly its
result. -/
theorem search_chunk_budget_witness :
    (0 : Nat) < 1 ∧
    tryKeyBy ecPubZero randZero [] ['0', 'x'] 0 =
      some ("0000000000000000000000000000000000000000000000000000000000000000".toList,
        "0x3f17f1962B36e491b30A40b2405849e597Ba5FB5".toList,
        "0x6bEB69F8bb038F1E9E4291cA3E5a0CdDF633e796".toList) ∧
    search_chunk_by ecPubZero randZero [] ['0', 'x'] 1 =
      some ("0000000000000000000000000000000000000000000000000000000000000000".toList,
        "0x3f17f1962B36e491b30A40b2405849e597Ba5FB5".toList,
        "0x6bEB69F8bb038F1E9E4291cA3E5a0CdDF633e796".toList) := by
  refine ⟨by decide, by decide, ?_⟩
  exact (search_chunk_budget ecPubZero randZero [] [] [] ['0', 'x'] [] 1).2.2.1 0 _
    (by decide) (fun i hi => absurd hi (Nat.not_lt_zero i)) (by decide)

/-! ## Coordinator round accounting -/

theorem roundLoop_spec (roundRes : Nat → List (Option α)) (step : Nat) :
    ∀ (fuel r iters : Nat),
      (roundLoop roundRes step fuel r iters).1 =
        (List.range (roundLoop roundRes step fuel r iters).1.length).map
          (fun k => iters + (k + 1) * step) ∧
      (∀ it res, (roundLoop roundRes step fuel r iters).2 = some (it, res) →
        it = iters + (roundLoop roundRes step fuel r iters).1.length * step) := by
  intro fuel
  induction fuel with
  | zero =>
    intro r iters
    exact ⟨rfl, fun it res h => by cases h⟩
  | succ fuel ih =>
    intro r iters
    obtain ⟨ih1, ih2⟩ := ih (r + 1) (iters + step)
    simp only [roundLoop]
    cases hh : firstHit (roundRes r) with
    | some res =>
      constructor
      · simp [List.range_succ]
      · intro it res' h
        simp only [Option.some.injEq, Prod.mk.injEq] at h
        simp [← h.1]
    | none =>
      constructor
      · show (iters + step) :: (roundLoop roundRes step fuel (r + 1) (iters + step)).1 = _
        rw [List.length_cons, List.range_succ_eq_map, List.map_cons, List.map_map]
        congr 1
        · omega
        · conv_lhs => rw [ih1]
          apply List.map_congr_left
          intro a _
          simp only [Function.comp_apply, Nat.succ_eq_add_one]
          ring
      · intro it res h
        have hit := ih2 it res h
        show it = iters + ((iters + step) :: (roundLoop roundRes step fuel (r + 1) (iters + step)).1).length * step
        rw [List.length_cons, hit]
        ring

/-! ## C7: iteration accounting at every reporting point -/

/-- C7: whenever the coordinator (either mode) runs, the counter value any
report reads after round `k` is exactly `(k+1) * chunkSize * workerCount`,
and the final counter reported on success equals
`roundsCompleted * chunkSize * workerCount`. -/
theorem iteration_accounting :
    (∀ (ecPub : List Nat → List Nat) (streams : Nat → Nat → Nat → Nat)
       (p : List Char) (num chunk fuel : Nat) (trace : List Nat)
       (out : Option (Nat × (List Char × List Char × List Char))),
      find_vanity_by ecPub streams p num chunk fuel = .ok (trace, out) →
      trace = (List.range trace.length).map (fun k => (k + 1) * (chunk * num)) ∧
      (out.map Prod.fst).getD (trace.length * (chunk * num)) =
        trace.length * (chunk * num)) ∧
    (∀ (streams : Nat → Nat → Nat → Nat) (d b p : List Char) (num fuel : Nat)
       (trace : List Nat) (out : Option (Nat × List Char × List Char)),
      find_vanity_c2 streams d b p num fuel = .ok (trace, out) →
      trace = (List.range trace.length).map (fun k => (k + 1) * (100000 * num)) ∧
      (out.map Prod.fst).getD (trace.length * (100000 * num)) =
        trace.length * (100000 * num)) := by
  constructor
  · intro ecPub streams p num chunk fuel trace out h
    unfold find_vanity_by at h
    cases hinit : init_by p with
    | error e => rw [hinit] at h; cases h
    | ok v =>
      obtain ⟨pb, vp⟩ := v
      rw [hinit] at h
      simp only [Except.ok.injEq] at h
      obtain ⟨hs1, hs2⟩ :=
        roundLoop_spec (roundResBy ecPub streams pb vp chunk num) (chunk * num) fuel 0 0
      have h1 : (roundLoop (roundResBy ecPub streams pb vp chunk num)
          (chunk * num) fuel 0 0).1 = trace := congrArg Prod.fst h
      have h2 : (roundLoop (roundResBy ecPub streams pb vp chunk num)
          (chunk * num) fuel 0 0).2 = out := congrArg Prod.snd h
      rw [h1] at hs1
      rw [h1] at hs2
      rw [h2] at hs2
      constructor
      · simpa using hs1
      · cases hout : out with
        | none => simp
        | some pr =>
          obtain ⟨it, res⟩ := pr
          have := hs2 it res hout
          simp [this]
  · intro streams d b p num fuel trace out h
    unfold find_vanity_c2 at h
    cases hinit : init_c2 d b p with
    | error e => rw [hinit] at h; cases h
    | ok v =>
      obtain ⟨db, bb, vp⟩ := v
      rw [hinit] at h
      obtain ⟨hs1, hs2⟩ :=
        roundLoop_spec (roundResC2 streams db bb vp 100000 num) (100000 * num) fuel 0 0
      cases hout2 : (roundLoop (roundResC2 streams db bb vp 100000 num)
          (100000 * num) fuel 0 0).2 with
      | none =>
        simp only [hout2] at h
        simp only [Except.ok.injEq, Prod.mk.injEq] at h
        obtain ⟨h1, h2⟩ := h
        subst h1
        constructor
        · simpa using hs1
        · rw [← h2]; simp
      | some pr =>
        obtain ⟨it, salt⟩ := pr
        cases hfh : pyFromHex salt with
        | none =>
          simp only [hout2, hfh] at h
          exact Except.noConfusion h
        | some sb =>
          simp only [hout2, hfh] at h
          simp only [Except.ok.injEq, Prod.mk.injEq] at h
          obtain ⟨h1, h2⟩ := h
          subst h1
          constructor
          · simpa using hs1
          · have := hs2 it salt hout2
            rw [← h2]
            simp [this]

/-- Witness for C7: a concrete two-round unsuccessful sender-key run whose
reported counters are exactly 1·(1·1) and 2·(1·1). -/
theorem iteration_accounting_witness :
    [1, 2] = (List.range ([1, 2] : List Nat).length).map (fun k => (k + 1) * (1 * 1)) ∧
    ((Option.map Prod.fst
        (none : Option (Nat × (List Char × List Char × List Char)))).getD
      (([1, 2] : List Nat).length * (1 * 1))) = ([1, 2] : List Nat).length * (1 * 1) :=
  iteration_accounting.1 ecPubZero streamsZero ['f', 'f'] 1 1 2 [1, 2] none (by decide)

/-! ## C8: empty prefix terminates in one round -/

/-- Every checksummed address string starts with the `0x` marker. -/
theorem isPrefixOf_0x (s : List Char) :
    List.isPrefixOf ['0', 'x'] (to_checksum_address s) = true := by
  unfold to_checksum_address
  simp [List.isPrefixOf]

/-- With the empty byte prefix and the bare `0x` string prefix, every
candidate passes both filter stages. -/
theorem tryKeyBy_nil (e : List Nat → List Nat) (rand : Nat → Nat) (j : Nat) :
    tryKeyBy e rand [] ['0', 'x'] j =
      some (bytesToHex (keyAt rand j),
        to_checksum_address ('0' :: 'x' :: bytesToHex
          (generate_address_from_private_key e (keyAt rand j))),
        to_checksum_address ('0' :: 'x' :: bytesToHex
          (get_contract_address (generate_address_from_private_key e (keyAt rand j)) 0))) := by
  unfold tryKeyBy
  have h1 : fastCheck (get_contract_address
      (generate_address_from_private_key e (keyAt rand j)) 0) [] = true := rfl
  simp [h1, isPrefixOf_0x]

/-- C8 (amended): with a length-0 requested prefix every candidate matches,
so with at least one worker and an iteration budget of at least 1 the
sender-key search returns a result after exactly one round, for any number
of further rounds the loop could have run. -/
theorem empty_prefix_one_round :
    ∀ (ecPub : List Nat → List Nat) (streams : Nat → Nat → Nat → Nat)
      (num chunk fuel : Nat), 1 ≤ num → 1 ≤ chunk → 1 ≤ fuel →
      oneRoundSuccess (find_vanity_by ecPub streams [] num chunk fuel) = true := by
  intro e st num chunk fuel hn hc hf
  obtain ⟨f, rfl⟩ : ∃ f, fuel = f + 1 := ⟨fuel - 1, by omega⟩
  obtain ⟨m, rfl⟩ : ∃ m, num = m + 1 := ⟨num - 1, by omega⟩
  have hw : search_chunk_by e (st 0 0) [] ['0', 'x'] chunk =
      some (bytesToHex (keyAt (st 0 0) 0),
        to_checksum_address ('0' :: 'x' :: bytesToHex
          (generate_address_from_private_key e (keyAt (st 0 0) 0))),
        to_checksum_address ('0' :: 'x' :: bytesToHex
          (get_contract_address (generate_address_from_private_key e (keyAt (st 0 0) 0)) 0))) := by
    rw [search_chunk_by_eq]
    exact findSome?_range_first _ chunk 0 _ (by omega)
      (fun i hi => absurd hi (Nat.not_lt_zero i)) (tryKeyBy_nil e (st 0 0) 0)
  have hrr : firstHit (roundResBy e st [] ['0', 'x'] chunk (m + 1) 0) =
      some (bytesToHex (keyAt (st 0 0) 0),
        to_checksum_address ('0' :: 'x' :: bytesToHex
          (generate_address_from_private_key e (keyAt (st 0 0) 0))),
        to_checksum_address ('0' :: 'x' :: bytesToHex
          (get_contract_address (generate_address_from_private_key e (keyAt (st 0 0) 0)) 0))) := by
    unfold roundResBy
    rw [List.range_succ_eq_map, List.map_cons]
    show firstHit (search_chunk_by e (st 0 0) [] ['0', 'x'] chunk :: _) = _
    rw [hw]
    rfl
  have hfv : find_vanity_by e st [] (m + 1) chunk (f + 1) =
      .ok (roundLoop (roundResBy e st [] ['0', 'x'] chunk (m + 1))
        (chunk * (m + 1)) (f + 1) 0 0) := rfl
  rw [hfv]
  simp only [roundLoop]
  rw [hrr]
  simp [oneRoundSuccess]

/-- Counterexample to C8 as stated: with iteration budget 0 the very same
empty-prefix search yields no result in its first round — nor in any later
round — so it does not return after one round "regardless of the iteration
budget". -/
theorem empty_prefix_zero_budget :
    oneRoundSuccess (find_vanity_by ecPubZero streamsZero [] 1 0 1) = false ∧
    find_vanity_by ecPubZero streamsZero [] 1 0 3 = .ok ([0, 0, 0], none) := by
  exact ⟨by decide, by decide⟩

/-- Witness for C8 (amended): hypotheses discharged at one worker, budget 1,
one round of fuel. -/
theorem empty_prefix_one_round_witness :
    (1 : Nat) ≤ 1 ∧
    oneRoundSuccess (find_vanity_by ecPubZero streamsZero [] 1 1 1) = true :=
  ⟨by decide, empty_prefix_one_round ecPubZero streamsZero 1 1 1 (by decide) (by decide) (by decide)⟩

/-! ## Character-level facts about hex digits, case, and `bytes.fromhex` -/

theorem hexDigitChar_mem (n : Nat) : hexDigitChar n ∈ hex16 := by
  by_cases h : n < 16
  · interval_cases n <;> decide
  · have hlen : hex16.length ≤ n := by
      have h16 : hex16.length = 16 := by simp [hex16]
      omega
    unfold hexDigitChar
    rw [List.getD_eq_getElem?_getD, List.getElem?_eq_none hlen]
    decide

theorem hex16_facts : ∀ c ∈ hex16,
    c.toLower = c ∧ c.toUpper.toLower = c ∧ c ∈ hexCharsExt ∧ c.toUpper ∈ hexCharsExt := by
  decide

theorem ext_digit_facts : ∀ c ∈ hexCharsExt,
    ((hexDigitVal? c).any (fun d => decide (d < 16) && (hexDigitChar d == c.toLower))) = true ∧
    isPySpace c = false ∧ c.toLower ∈ hex16 := by
  decide

theorem ext_digit (c : Char) (hc : c ∈ hexCharsExt) :
    ∃ d, hexDigitVal? c = some d ∧ d < 16 ∧ hexDigitChar d = c.toLower := by
  have h := (ext_digit_facts c hc).1
  cases hd : hexDigitVal? c with
  | none => rw [hd] at h; cases h
  | some d =>
    rw [hd] at h
    simp only [Option.any_some, Bool.and_eq_true, decide_eq_true_eq, beq_iff_eq] at h
    exact ⟨d, rfl, h.1, h.2⟩

theorem hexDigitChar_val : ∀ d < 16,
    (hexDigitVal? (hexDigitChar d) == some d && !(isPySpace (hexDigitChar d))) = true := by
  decide

theorem bytesToHex_mem (bs : List Nat) : ∀ c ∈ bytesToHex bs, c ∈ hex16 := by
  intro c hc
  unfold bytesToHex at hc
  obtain ⟨b, _, hcb⟩ := List.mem_flatMap.mp hc
  simp only [List.mem_cons, List.not_mem_nil, or_false] at hcb
  rcases hcb with rfl | rfl <;> exact hexDigitChar_mem _

theorem bytesToHex_take (bs : List Nat) :
    ∀ k, bytesToHex (bs.take k) = (bytesToHex bs).take (2 * k) := by
  induction bs with
  | nil => intro k; simp [bytesToHex]
  | cons b rest ih =>
    intro k
    cases k with
    | zero => simp [bytesToHex]
    | succ k =>
      rw [List.take_succ_cons]
      show hexDigitChar (b / 16) :: hexDigitChar (b % 16) :: bytesToHex (rest.take k) = _
      rw [show 2 * (k + 1) = (2 * k) + 1 + 1 by ring]
      show _ = (hexDigitChar (b / 16) :: hexDigitChar (b % 16) :: bytesToHex rest).take (2 * k + 1 + 1)
      rw [List.take_succ_cons, List.take_succ_cons, ih k]

theorem isPySpace_of_hex (c : Char) (d : Nat) (h : hexDigitVal? c = some d) :
    isPySpace c = false := by
  by_contra hs
  have hs' : isPySpace c = true := by
    cases hsp : isPySpace c
    · exact absurd hsp hs
    · rfl
  unfold isPySpace at hs'
  simp only [Bool.or_eq_true, decide_eq_true_eq] at hs'
  rcases hs' with ((((h' | h') | h') | h') | h') | h' <;> subst h' <;> simp_all [hexDigitVal?]

theorem pyFromHexAux_parity (l : List Char) :
    (∀ c ∈ l, isHexChar c = true) →
    (l.length % 2 = 1 → pyFromHexAux none l = none) ∧
    (l.length % 2 = 0 → ∀ d, pyFromHexAux (some d) l = none) := by
  induction l with
  | nil =>
    intro _
    refine ⟨fun h => ?_, fun _ d => rfl⟩
    cases h
  | cons c rest ih =>
    intro hhex
    have hc : isHexChar c = true := hhex c (by simp)
    obtain ⟨d, hd⟩ : ∃ d, hexDigitVal? c = some d := by
      unfold isHexChar at hc
      cases hv : hexDigitVal? c
      · rw [hv] at hc; cases hc
      · exact ⟨_, rfl⟩
    have hsp := isPySpace_of_hex c d hd
    obtain ⟨ihA, ihB⟩ := ih (fun x hx => hhex x (by simp [hx]))
    constructor
    · intro hodd
      show (if isPySpace c then pyFromHexAux none rest
        else match hexDigitVal? c with
          | none => none
          | some d => pyFromHexAux (some d) rest) = none
      rw [hsp, hd]
      simp only [Bool.false_eq_true, if_false]
      exact ihB (by simp at hodd ⊢; omega) d
    · intro heven d1
      show (match hexDigitVal? c with
        | none => none
        | some d2 => (pyFromHexAux none rest).map (fun bs => (16 * d1 + d2) :: bs)) = none
      rw [hd]
      have : pyFromHexAux none rest = none := ihA (by simp at heven ⊢; omega)
      rw [this]
      rfl

theorem pyFromHexAux_decode (l : List Char) :
    (∀ c ∈ l, c ∈ hexCharsExt) →
    (∀ pb, pyFromHexAux none l = some pb →
      bytesToHex pb = l.map Char.toLower ∧ l.length = 2 * pb.length) ∧
    (∀ d1 pb, d1 < 16 → pyFromHexAux (some d1) l = some pb →
      bytesToHex pb = hexDigitChar d1 :: l.map Char.toLower ∧ l.length + 1 = 2 * pb.length) := by
  induction l with
  | nil =>
    intro _
    constructor
    · intro pb h
      have hpb : pb = [] := by
        have h' : some [] = some pb := h
        injection h' with h''
        exact h''.symm
      subst hpb
      exact ⟨rfl, rfl⟩
    · intro d1 pb _ h
      cases h
  | cons c rest ih =>
    intro hext
    have hc : c ∈ hexCharsExt := hext c (by simp)
    obtain ⟨ihA, ihB⟩ := ih (fun x hx => hext x (by simp [hx]))
    obtain ⟨d, hd, hdlt, hdchar⟩ := ext_digit c hc
    have hsp : isPySpace c = false := (ext_digit_facts c hc).2.1
    constructor
    · intro pb h
      replace h : (if isPySpace c then pyFromHexAux none rest
        else match hexDigitVal? c with
          | none => none
          | some d => pyFromHexAux (some d) rest) = some pb := h
      rw [hsp, hd] at h
      simp only [Bool.false_eq_true, if_false] at h
      obtain ⟨hb, hl⟩ := ihB d pb hdlt h
      refine ⟨?_, ?_⟩
      · rw [hb, hdchar, List.map_cons]
      · simp only [List.length_cons]
        omega
    · intro d1 pb hd1 h
      replace h : (match hexDigitVal? c with
        | none => none
        | some d2 => (pyFromHexAux none rest).map (fun bs => (16 * d1 + d2) :: bs)) = some pb := h
      rw [hd] at h
      cases hrec : pyFromHexAux none rest with
      | none => rw [hrec] at h; cases h
      | some pb' =>
        rw [hrec] at h
        simp only [Option.map_some'] at h
        injection h with h'
        obtain ⟨hbp, hlp⟩ := ihA pb' hrec
        subst h'
        constructor
        · have e1 : (16 * d1 + d) / 16 = d1 := by omega
          have e2 : (16 * d1 + d) % 16 = d := by omega
          show hexDigitChar ((16 * d1 + d) / 16) :: hexDigitChar ((16 * d1 + d) % 16) ::
            bytesToHex pb' = _
          rw [e1, e2, hbp, hdchar, List.map_cons]
        · simp only [List.length_cons]
          omega

theorem pyFromHex_bytesToHex (bs : List Nat) :
    (∀ b ∈ bs, b < 256) → pyFromHex (bytesToHex bs) = some bs := by
  induction bs with
  | nil => intro _; rfl
  | cons b rest ih =>
    intro hb
    have hblt : b < 256 := hb b (by simp)
    have h16 : b / 16 < 16 := by omega
    have h16' : b % 16 < 16 := by omega
    have hv1 := hexDigitChar_val (b / 16) h16
    have hv2 := hexDigitChar_val (b % 16) h16'
    simp only [Bool.and_eq_true, beq_iff_eq, Bool.not_eq_true'] at hv1 hv2
    show pyFromHexAux none
      (hexDigitChar (b / 16) :: hexDigitChar (b % 16) :: bytesToHex rest) = some (b :: rest)
    replace ih := ih (fun x hx => hb x (by simp [hx]))
    show (if isPySpace (hexDigitChar (b / 16)) then
        pyFromHexAux none (hexDigitChar (b % 16) :: bytesToHex rest)
      else match hexDigitVal? (hexDigitChar (b / 16)) with
        | none => none
        | some d => pyFromHexAux (some d) (hexDigitChar (b % 16) :: bytesToHex rest)) =
      some (b :: rest)
    rw [hv1.2, hv1.1]
    simp only [Bool.false_eq_true, if_false]
    show (match hexDigitVal? (hexDigitChar (b % 16)) with
      | none => none
      | some d2 => (pyFromHexAux none (bytesToHex rest)).map
          (fun bs => (16 * (b / 16) + d2) :: bs)) = some (b :: rest)
    rw [hv2.1]
    show (pyFromHex (bytesToHex rest)).map (fun bs => (16 * (b / 16) + b % 16) :: bs) =
      some (b :: rest)
    rw [ih]
    simp only [Option.map_some']
    congr 1
    have : 16 * (b / 16) + b % 16 = b := by omega
    rw [this]

/-! ## C2: the two-stage candidate filter -/

theorem checksumMapAux_prefix (h : List Nat) :
    ∀ (hx : List Char) (i : Nat) (ps : List Char),
      (∀ c ∈ hx, c ∈ hex16) → ps <+: checksumMapAux h i hx →
      ps.map Char.toLower = hx.take ps.length ∧ ∀ c ∈ ps, c ∈ hexCharsExt := by
  intro hx
  induction hx with
  | nil =>
    intro i ps hmem hpre
    have hps : ps = [] := List.prefix_nil.mp hpre
    subst hps
    simp
  | cons c rest ih =>
    intro i ps hmem hpre
    cases ps with
    | nil => simp
    | cons p ps' =>
      replace hpre : p :: ps' <+:
          (if 8 ≤ nibbleAt h i then c.toUpper else c) :: checksumMapAux h (i + 1) rest := hpre
      rw [List.cons_prefix_cons] at hpre
      obtain ⟨hp, hps⟩ := hpre
      have hc : c ∈ hex16 := hmem c (by simp)
      obtain ⟨hl, hul, hext1, hext2⟩ := hex16_facts c hc
      obtain ⟨ih1, ih2⟩ := ih (i + 1) ps' (fun x hx' => hmem x (by simp [hx'])) hps
      constructor
      · rw [List.map_cons, List.length_cons, List.take_succ_cons, ih1]
        congr 1
        rw [hp]
        split
        · exact hul
        · exact hl
      · intro x hx'
        rcases List.mem_cons.mp hx' with rfl | hx''
        · rw [hp]
          split
          · exact hext2
          · exact hext1
        · exact ih2 x hx''

/-- C2: whenever the full checksum string of an address starts with the
(normalized, hex-decodable) requested prefix string, the cheap byte-level
first stage passes; the filter as a whole matches exactly when the checksum
string starts with the prefix under case-sensitive comparison; and the
per-candidate test of `search_chunk` is exactly this two-stage filter
applied to the derived contract address. -/
theorem filter_two_stage :
    ∀ (a pb : List Nat) (ps : List Char),
      pyFromHex ps = some pb →
      (List.isPrefixOf ('0' :: 'x' :: ps) (checksumOf a) = true → fastCheck a pb = true) ∧
      (matchesFilter a pb ('0' :: 'x' :: ps) = true ↔
        List.isPrefixOf ('0' :: 'x' :: ps) (checksumOf a) = true) ∧
      (∀ (ecPub : List Nat → List Nat) (rand : Nat → Nat) (j : Nat),
        (tryKeyBy ecPub rand pb ('0' :: 'x' :: ps) j).isSome =
          matchesFilter (get_contract_address
            (generate_address_from_private_key ecPub (keyAt rand j)) 0) pb
            ('0' :: 'x' :: ps)) := by
  intro a pb ps hps
  have stage1 : List.isPrefixOf ('0' :: 'x' :: ps) (checksumOf a) = true →
      fastCheck a pb = true := by
    intro hpre
    rw [List.isPrefixOf_iff_prefix] at hpre
    replace hpre : '0' :: 'x' :: ps <+: '0' :: 'x' ::
        checksumMapAux (keccak256 ((bytesToHex a).map Char.toNat)) 0 (bytesToHex a) := hpre
    rw [List.cons_prefix_cons] at hpre
    obtain ⟨-, hpre⟩ := hpre
    rw [List.cons_prefix_cons] at hpre
    obtain ⟨-, hpre⟩ := hpre
    obtain ⟨hmap, hext⟩ :=
      checksumMapAux_prefix _ (bytesToHex a) 0 ps (bytesToHex_mem a) hpre
    obtain ⟨hA, -⟩ := pyFromHexAux_decode ps hext
    obtain ⟨hb, hlen⟩ := hA pb hps
    unfold fastCheck
    rw [bytesToHex_take, hb, ← hlen, ← hmap]
    simp
  refine ⟨stage1, ⟨?_, ?_⟩, ?_⟩
  · intro hm
    simp only [matchesFilter, Bool.and_eq_true] at hm
    exact hm.2
  · intro hpre
    unfold matchesFilter
    rw [stage1 hpre, hpre]
    rfl
  · intro e rand j
    unfold tryKeyBy matchesFilter checksumOf
    cases h1 : fastCheck (get_contract_address
        (generate_address_from_private_key e (keyAt rand j)) 0) pb <;>
      cases h2 : List.isPrefixOf ('0' :: 'x' :: ps) (to_checksum_address
        ('0' :: 'x' :: bytesToHex (get_contract_address
          (generate_address_from_private_key e (keyAt rand j)) 0))) <;>
        simp [h1, h2]

/-- Witness for C2: the hex-decodable prefix "0xBd" and a concrete address
whose checksum string starts with it. -/
theorem filter_two_stage_witness :
    pyFromHex ['B', 'd'] = some [0xbd] ∧
    fastCheck
      [0xbd, 0x77, 0x04, 0x16, 0xa3, 0x34, 0x5f, 0x91, 0xe4, 0xb3, 0x45, 0x76,
       0xcb, 0x80, 0x4a, 0x57, 0x6f, 0xa4, 0x8e, 0xb1] [0xbd] = true :=
  ⟨by decide,
    (filter_two_stage
      [0xbd, 0x77, 0x04, 0x16, 0xa3, 0x34, 0x5f, 0x91, 0xe4, 0xb3, 0x45, 0x76,
       0xcb, 0x80, 0x4a, 0x57, 0x6f, 0xa4, 0x8e, 0xb1] [0xbd] ['B', 'd']
      (by decide)).1 (by decide)⟩

/-! ## C10: odd-length all-hex prefixes are rejected in the sender-key mode -/

/-- C10: a prefix whose content after the marker is made of hex digits but
has odd length still fails `bytes.fromhex` and raises the
invalid-hex-prefix error at INIT of the sender-key coordinator: only
whole-byte prefixes can be searched in that mode. -/
theorem odd_hex_prefix_rejected :
    ∀ p : List Char, (∀ c ∈ p, isHexChar c = true) → p.length % 2 = 1 →
      init_by p = .error ("Invalid hex prefix: ".toList ++ ('0' :: 'x' :: p)) ∧
      ∀ (ecPub : List Nat → List Nat) (streams : Nat → Nat → Nat → Nat)
        (num chunk fuel : Nat),
        find_vanity_by ecPub streams p num chunk fuel =
          .error ("Invalid hex prefix: ".toList ++ ('0' :: 'x' :: p)) := by
  intro p hhex hodd
  have hxne : ensure0x p = '0' :: 'x' :: p := by
    unfold ensure0x
    cases hpre : List.isPrefixOf ['0', 'x'] p with
    | false => simp
    | true =>
      exfalso
      rw [List.isPrefixOf_iff_prefix] at hpre
      obtain ⟨t, ht⟩ := hpre
      have hx : 'x' ∈ p := by
        rw [← ht]
        simp
      exact absurd (hhex 'x' hx) (by decide)
  have hnone : pyFromHex p = none := (pyFromHexAux_parity p hhex).1 hodd
  have hinit : init_by p = .error ("Invalid hex prefix: ".toList ++ ('0' :: 'x' :: p)) := by
    simp only [init_by, hxne]
    rw [show List.drop 2 ('0' :: 'x' :: p) = p from rfl, hnone]
  refine ⟨hinit, ?_⟩
  intro ecPub streams num chunk fuel
  unfold find_vanity_by
  rw [hinit]

/-- Witness for C10: the all-hex, odd-length prefix "abc". -/
theorem odd_hex_prefix_witness :
    (['a', 'b', 'c'].length % 2 = 1) ∧
    init_by ['a', 'b', 'c'] =
      .error ("Invalid hex prefix: ".toList ++ ('0' :: 'x' :: ['a', 'b', 'c'])) :=
  ⟨by decide, (odd_hex_prefix_rejected ['a', 'b', 'c'] (by decide) (by decide)).1⟩

/-! ## C6: prefix hex validation at INIT -/

/-- C6 (amended): a requested prefix whose content after the `0x` marker is
not valid hexadecimal makes the sender-key coordinator raise the
invalid-hex-prefix error synchronously at INIT — before any round is
dispatched and however many rounds could have run — while the CREATE2
coordinator hex-validates only the deployer and bytecode at INIT and
accepts any prefix string unchecked. -/
theorem invalid_prefix_validation :
    (∀ (p : List Char), pyFromHex ((ensure0x p).drop 2) = none →
      init_by p = .error ("Invalid hex prefix: ".toList ++ ensure0x p) ∧
      ∀ (ecPub : List Nat → List Nat) (streams : Nat → Nat → Nat → Nat)
        (num chunk fuel : Nat),
        find_vanity_by ecPub streams p num chunk fuel =
          .error ("Invalid hex prefix: ".toList ++ ensure0x p)) ∧
    (∀ (d b p : List Char) (db bb : List Nat),
      pyFromHex (pyZfill 40 (remove0x (d.map Char.toLower))) = some db →
      pyFromHex b = some bb →
      init_c2 d b p = .ok (db, bb, ensure0x p)) := by
  constructor
  · intro p hbad
    have hinit : init_by p = .error ("Invalid hex prefix: ".toList ++ ensure0x p) := by
      simp only [init_by]
      rw [hbad]
    refine ⟨hinit, ?_⟩
    intro ecPub streams num chunk fuel
    unfold find_vanity_by
    rw [hinit]
  · intro d b p db bb hd hb
    unfold init_c2
    rw [hd, hb]

/-- Counterexample to C6 as stated: with the repository's literal deployer
and bytecode-hash strings and the non-hexadecimal prefix "0xzz", the
CREATE2 coordinator's INIT succeeds — the prefix is never hex-validated in
that mode. -/
theorem create2_no_prefix_validation :
    pyFromHex ((ensure0x "0xzz".toList).drop 2) = none ∧
    (init_c2 "0x4e59b44847b379578588920cA78FbF26c0B4956C".toList
      "3ba2837b92a48b70fada56d28bb24dd6bc2931085d07026c06e5977ac5fe3d07".toList
      "0xzz".toList).isOk = true :=
  ⟨by decide, by decide⟩

/-- Witness for C6 (amended): the invalid prefix "0xzz" rejected at INIT in
the sender-key mode, and accepted unchecked by the CREATE2 INIT alongside
the repository's valid deployer and bytecode. -/
theorem invalid_prefix_validation_witness :
    init_by "0xzz".toList =
      .error ("Invalid hex prefix: ".toList ++ ensure0x "0xzz".toList) ∧
    init_c2 "0x4e59b44847b379578588920cA78FbF26c0B4956C".toList
      "3ba2837b92a48b70fada56d28bb24dd6bc2931085d07026c06e5977ac5fe3d07".toList
      "0xzz".toList =
      .ok ([0x4e, 0x59, 0xb4, 0x48, 0x47, 0xb3, 0x79, 0x57, 0x85, 0x88, 0x92, 0x0c,
            0xa7, 0x8f, 0xbf, 0x26, 0xc0, 0xb4, 0x95, 0x6c],
           [0x3b, 0xa2, 0x83, 0x7b, 0x92, 0xa4, 0x8b, 0x70, 0xfa, 0xda, 0x56, 0xd2,
            0x8b, 0xb2, 0x4d, 0xd6, 0xbc, 0x29, 0x31, 0x08, 0x5d, 0x07, 0x02, 0x6c,
            0x06, 0xe5, 0x97, 0x7a, 0xc5, 0xfe, 0x3d, 0x07],
           ensure0x "0xzz".toList) :=
  ⟨(invalid_prefix_validation.1 "0xzz".toList (by decide)).1,
   invalid_prefix_validation.2 "0x4e59b44847b379578588920cA78FbF26c0B4956C".toList
     "3ba2837b92a48b70fada56d28bb24dd6bc2931085d07026c06e5977ac5fe3d07".toList
     "0xzz".toList _ _ (by decide) (by decide)⟩

/-! ## C9: consistency of returned values -/

theorem firstHit_mem : ∀ (l : List (Option α)) (r : α), firstHit l = some r → some r ∈ l := by
  intro l
  induction l with
  | nil => intro r h; cases h
  | cons x rest ih =>
    intro r h
    cases x with
    | some v =>
      have hv : v = r := by
        have h' : some v = some r := h
        injection h'
      subst hv
      simp
    | none =>
      have h' : firstHit rest = some r := h
      simp [ih r h']

theorem roundLoop_out (roundRes : Nat → List (Option α)) (step : Nat) :
    ∀ (fuel r iters it : Nat) (res : α),
      (roundLoop roundRes step fuel r iters).2 = some (it, res) →
      ∃ rr, firstHit (roundRes rr) = some res := by
  intro fuel
  induction fuel with
  | zero => intro r iters it res h; cases h
  | succ fuel ih =>
    intro r iters it res h
    simp only [roundLoop] at h
    cases hh : firstHit (roundRes r) with
    | some v =>
      rw [hh] at h
      simp only [Option.some.injEq, Prod.mk.injEq] at h
      exact ⟨r, by rw [hh, h.2]⟩
    | none =>
      rw [hh] at h
      exact ih (r + 1) (iters + step) it res h

theorem keyAt_lt (rand : Nat → Nat) (j : Nat) : ∀ b ∈ keyAt rand j, b < 256 := by
  intro b hb
  unfold keyAt at hb
  obtain ⟨i, -, hbi⟩ := List.mem_map.mp hb
  omega

theorem init_by_ok (p : List Char) (pb : List Nat) (vp : List Char)
    (h : init_by p = .ok (pb, vp)) :
    vp = ensure0x p ∧ pyFromHex ((ensure0x p).drop 2) = some pb := by
  simp only [init_by] at h
  cases hf : pyFromHex ((ensure0x p).drop 2) with
  | none => rw [hf] at h; exact Except.noConfusion h
  | some pb' =>
    rw [hf] at h
    simp only [Except.ok.injEq, Prod.mk.injEq] at h
    exact ⟨h.2.symm, congrArg Option.some h.1⟩

theorem init_c2_ok (d b p : List Char) (db bb : List Nat) (vp : List Char)
    (h : init_c2 d b p = .ok (db, bb, vp)) :
    pyFromHex (pyZfill 40 (remove0x (d.map Char.toLower))) = some db ∧
    pyFromHex b = some bb ∧ vp = ensure0x p := by
  unfold init_c2 at h
  cases hd : pyFromHex (pyZfill 40 (remove0x (d.map Char.toLower))) with
  | none => rw [hd] at h; exact Except.noConfusion h
  | some db' =>
    rw [hd] at h
    cases hb : pyFromHex b with
    | none => rw [hb] at h; exact Except.noConfusion h
    | some bb' =>
      rw [hb] at h
      simp only [Except.ok.injEq, Prod.mk.injEq] at h
      obtain ⟨h1, h2, h3⟩ := h
      exact ⟨congrArg Option.some h1, congrArg Option.some h2, h3.symm⟩

/-- C9: whenever the search returns successfully, the returned values are
mutually consistent.  Sender-key mode: the returned sender address is the
checksum encoding of the address derived from the returned private key
(hex round-tripped), the returned contract address is the checksum encoding
of the nonce-0 legacy derivation from that sender, and it starts with the
normalized requested prefix.  CREATE2 mode: the returned address equals the
CREATE2 derivation recomputed from the hex round-trip of the returned salt
with the parsed deployer and bytecode hash, and its checksum form starts
with the normalized requested prefix. -/
theorem result_consistency :
    (∀ (ecPub : List Nat → List Nat) (streams : Nat → Nat → Nat → Nat)
       (p : List Char) (num chunk fuel it : Nat) (trace : List Nat)
       (pkHex sAddr cAddr : List Char),
      find_vanity_by ecPub streams p num chunk fuel =
        .ok (trace, some (it, (pkHex, sAddr, cAddr))) →
      (pyFromHex pkHex).isSome = true ∧
      sAddr = to_checksum_address ('0' :: 'x' :: bytesToHex
        (generate_address_from_private_key ecPub ((pyFromHex pkHex).getD []))) ∧
      cAddr = to_checksum_address ('0' :: 'x' :: bytesToHex
        (get_contract_address (generate_address_from_private_key ecPub
          ((pyFromHex pkHex).getD [])) 0)) ∧
      List.isPrefixOf (ensure0x p) cAddr = true) ∧
    (∀ (streams : Nat → Nat → Nat → Nat) (d b p : List Char) (num fuel it : Nat)
       (trace : List Nat) (salt finalAddr : List Char),
      find_vanity_c2 streams d b p num fuel = .ok (trace, some (it, salt, finalAddr)) →
      (pyFromHex salt).isSome = true ∧
      finalAddr = '0' :: 'x' :: bytesToHex (calculate_create2_address_optimized
        ((pyFromHex (pyZfill 40 (remove0x (d.map Char.toLower)))).getD [])
        ((pyFromHex salt).getD []) ((pyFromHex b).getD [])) ∧
      List.isPrefixOf (ensure0x p) (to_checksum_address ('0' :: 'x' :: bytesToHex
        (calculate_create2_address_optimized
          ((pyFromHex (pyZfill 40 (remove0x (d.map Char.toLower)))).getD [])
          ((pyFromHex salt).getD []) ((pyFromHex b).getD [])))) = true) := by
  constructor
  · intro e st p num chunk fuel it trace pkHex sAddr cAddr h
    unfold find_vanity_by at h
    cases hinit : init_by p with
    | error err => rw [hinit] at h; exact Except.noConfusion h
    | ok v =>
      obtain ⟨pb, vp⟩ := v
      obtain ⟨hvp, hpb⟩ := init_by_ok p pb vp hinit
      rw [hinit] at h
      injection h with h'
      have h2 : (roundLoop (roundResBy e st pb vp chunk num) (chunk * num) fuel 0 0).2 =
          some (it, (pkHex, sAddr, cAddr)) := congrArg Prod.snd h'
      obtain ⟨rr, hfh⟩ := roundLoop_out _ _ fuel 0 0 it _ h2
      have hmem := firstHit_mem _ _ hfh
      unfold roundResBy at hmem
      obtain ⟨w, -, hws⟩ := List.mem_map.mp hmem
      rw [search_chunk_by_eq, List.findSome?_eq_some_iff] at hws
      obtain ⟨l1, jj, l2, -, hjr, -⟩ := hws
      simp only [tryKeyBy] at hjr
      split at hjr
      · split at hjr
        · rename_i hfc hpf
          injection hjr with hjr'
          simp only [Prod.mk.injEq] at hjr'
          obtain ⟨e1, e2, e3⟩ := hjr'
          have hrt : pyFromHex (bytesToHex (keyAt (st rr w) jj)) =
              some (keyAt (st rr w) jj) := pyFromHex_bytesToHex _ (keyAt_lt _ _)
          subst e1
          refine ⟨?_, ?_, ?_, ?_⟩
          · rw [hrt]; rfl
          · rw [hrt]
            simp only [Option.getD_some]
            exact e2.symm
          · rw [hrt]
            simp only [Option.getD_some]
            exact e3.symm
          · rw [← hvp, ← e3]
            exact hpf
        · exact Option.noConfusion hjr
      · exact Option.noConfusion hjr
  · intro st d b p num fuel it trace salt finalAddr h
    unfold find_vanity_c2 at h
    cases hinit : init_c2 d b p with
    | error err => rw [hinit] at h; exact Except.noConfusion h
    | ok v =>
      obtain ⟨db, bb, vp⟩ := v
      obtain ⟨hd, hb, hvp⟩ := init_c2_ok d b p db bb vp hinit
      rw [hinit] at h
      cases hout : (roundLoop (roundResC2 st db bb vp 100000 num) (100000 * num) fuel 0 0).2 with
      | none =>
        simp only [hout] at h
        injection h with h'
        exact Option.noConfusion (congrArg Prod.snd h')
      | some pr =>
        obtain ⟨it0, salt0⟩ := pr
        cases hfh : pyFromHex salt0 with
        | none =>
          simp only [hout, hfh] at h
          exact Except.noConfusion h
        | some sb =>
          simp only [hout, hfh] at h
          simp only [Except.ok.injEq, Prod.mk.injEq, Option.some.injEq] at h
          obtain ⟨-, -, hsalt, hfin⟩ := h
          subst hsalt
          obtain ⟨rr, hfh2⟩ := roundLoop_out _ _ fuel 0 0 it0 salt0 hout
          have hmem := firstHit_mem _ _ hfh2
          unfold roundResC2 at hmem
          obtain ⟨w, -, hws⟩ := List.mem_map.mp hmem
          rw [search_chunk_c2_eq, List.findSome?_eq_some_iff] at hws
          obtain ⟨l1, jj, l2, -, hjr, -⟩ := hws
          simp only [trySaltC2] at hjr
          split at hjr
          · rename_i hpf
            injection hjr with hjr'
            subst hjr'
            have hrt : pyFromHex (bytesToHex (keyAt (st rr w) jj)) =
                some (keyAt (st rr w) jj) := pyFromHex_bytesToHex _ (keyAt_lt _ _)
            have hsb : sb = keyAt (st rr w) jj := by
              rw [hrt] at hfh
              injection hfh with h''
              exact h''.symm
            subst hsb
            refine ⟨?_, ?_, ?_⟩
            · rw [hrt]; rfl
            · rw [← hfin, hd, hb, hrt]
              simp only [Option.getD_some]
            · rw [hd, hb, hrt]
              simp only [Option.getD_some]
              rw [← hvp]
              exact hpf
          · exact Option.noConfusion hjr

/-- Witness for C9: the concrete one-round empty-prefix run returns the
all-zero key, and the returned addresses are consistent with it. -/
theorem result_consistency_witness :
    (pyFromHex
      "0000000000000000000000000000000000000000000000000000000000000000".toList).isSome
      = true ∧
    "0x3f17f1962B36e491b30A40b2405849e597Ba5FB5".toList =
      to_checksum_address ('0' :: 'x' :: bytesToHex (generate_address_from_private_key
        ecPubZero ((pyFromHex
          "0000000000000000000000000000000000000000000000000000000000000000".toList).getD
          []))) ∧
    "0x6bEB69F8bb038F1E9E4291cA3E5a0CdDF633e796".toList =
      to_checksum_address ('0' :: 'x' :: bytesToHex (get_contract_address
        (generate_address_from_private_key ecPubZero
          ((pyFromHex
            "0000000000000000000000000000000000000000000000000000000000000000".toList).getD
            [])) 0)) ∧
    List.isPrefixOf (ensure0x ([] : List Char))
      "0x6bEB69F8bb038F1E9E4291cA3E5a0CdDF633e796".toList = true :=
  result_consistency.1 ecPubZero streamsZero [] 1 1 1 1 [1]
    "0000000000000000000000000000000000000000000000000000000000000000".toList
    "0x3f17f1962B36e491b30A40b2405849e597Ba5FB5".toList
    "0x6bEB69F8bb038F1E9E4291cA3E5a0CdDF633e796".toList (by decide)
